import Mathlib

/-!
Verification of the frame-accurate seek-and-decode engine in
`packages/renderer/rust/video.rs`.

The source file has two entry points:

* `get_video_frame(layer, video_fps)` — opens the container twice, locates the
  video stream, converts the requested frame index to a container-native
  position using `f64` arithmetic, seeks, then decodes forward through packets,
  scaling each decoded frame to RGB24 and stripping stride padding.
* `process_frames(video_signals)` — batch pre-seek stub plus a one-shot
  message channel.

The embedding below models the ffmpeg library through an explicit environment
(`Env` / `BatchEnv`): container opens, stream lookup, seeking, decoder sends
and receives, and the scaler are oracle functions or flags, while every piece
of control flow, arithmetic and buffer manipulation written in `video.rs`
itself is translated directly.  Machine floats (`f64`) are modelled exactly:
an `F64` value is a rational (an integer numerator over a positive integer
denominator, kept unnormalized so that every operation is plain integer
arithmetic the kernel can evaluate) or an IEEE special value, and every
operation rounds to nearest, ties to even, at 53 bits of precision, with
subnormal quantum `2^(-1074)` and overflow to infinity at `2^1024`, matching
Rust's `f64` semantics for the operations the source performs (signed zero is
not distinguished; no operation in the source can observe the sign of a
zero).  Rust's saturating `as i64` cast is modelled by `toI64`.

Panics (`unwrap` on `None`/`Err`) are modelled as a distinct `panic` outcome,
and the unbounded inner decode loop is run on explicit fuel, with fuel
exhaustion reported as a distinct `diverge`/`spin` outcome so that potential
non-termination is observable.
-/

set_option maxRecDepth 100000

namespace RemotionVideo

/-! ## Exact IEEE binary64 model

`Q` is an unnormalized rational: the value `num / den`, with the invariant
`0 < den` maintained by every operation below. -/

structure Q where
  num : ℤ
  den : ℤ
deriving DecidableEq

def Q.ofInt (z : ℤ) : Q := ⟨z, 1⟩

/-- The power `2 ^ n` as an integer, computed with (kernel-accelerated) natural-number
exponentiation. -/
def pow2 (n : ℕ) : ℤ := ((2 ^ n : ℕ) : ℤ)

def Q.mul (a b : Q) : Q := ⟨a.num * b.num, a.den * b.den⟩

/-- Exact rational division; callers guard against `b.num = 0`.  The result's
denominator is kept positive. -/
def Q.div (a b : Q) : Q :=
  if 0 ≤ b.num then ⟨a.num * b.den, a.den * b.num⟩
  else ⟨-(a.num * b.den), -(a.den * b.num)⟩

/-- Multiply by a (possibly negative) power of two, exactly. -/
def Q.mulPow2 (a : Q) (k : ℤ) : Q :=
  if 0 ≤ k then ⟨a.num * pow2 k.toNat, a.den⟩ else ⟨a.num, a.den * pow2 (-k).toNat⟩

def Q.abs (a : Q) : Q := ⟨|a.num|, a.den⟩

/-- Floor of a rational with positive denominator (`/` on `ℤ` is Euclidean
division, which is floor division for positive divisors). -/
def Q.floor (a : Q) : ℤ := a.num / a.den

/-- Holds when `2 ^ k ≤ a`, assuming `0 < a.den`. -/
def Q.pow2Le (k : ℤ) (a : Q) : Prop :=
  if 0 ≤ k then pow2 k.toNat * a.den ≤ a.num else a.den ≤ a.num * pow2 (-k).toNat

instance (k : ℤ) (a : Q) : Decidable (Q.pow2Le k a) := by
  unfold Q.pow2Le; infer_instance

/-- Round a rational (with positive denominator) to the nearest integer, ties
to even. -/
def rneInt (q : Q) : ℤ :=
  let f := Q.floor q
  let r2 := 2 * (q.num - f * q.den)
  if r2 < q.den then f
  else if q.den < r2 then f + 1
  else if f % 2 = 0 then f else f + 1

/-- Fuel-driven base-2 logarithm on `ℕ` (structural recursion so the kernel
can evaluate it); `nlog2 n` is `⌊log₂ n⌋` for `n ≥ 1`. -/
def log2fuel : ℕ → ℕ → ℕ
  | 0, _ => 0
  | fuel + 1, n => if n < 2 then 0 else log2fuel fuel (n / 2) + 1

def nlog2 (n : ℕ) : ℕ := log2fuel n n

/-- Floor of the base-2 logarithm of a positive rational (unspecified for
nonpositive values). -/
def alog2 (q : Q) : ℤ :=
  if q.den ≤ q.num then (nlog2 (q.num.toNat / q.den.toNat) : ℤ)
  else
    let L : ℕ := nlog2 (q.den.toNat / q.num.toNat)
    if Q.pow2Le (-(L : ℤ)) q then -(L : ℤ) else -(L : ℤ) - 1

/-- Magnitude of the binary64 rounding of a positive rational: round to 53
significant bits (quantum `2^(e-52)` where `e` is the exponent clamped at the
subnormal range), ties to even.  The result may be `0` (underflow) or
`≥ 2^1024` (overflow). -/
def flAbs (a : Q) : Q :=
  Q.mulPow2 (Q.ofInt (rneInt (Q.mulPow2 a (52 - max (alog2 a) (-1022)))))
    (max (alog2 a) (-1022) - 52)

/-- A machine double: a rational (exactly representable in binary64 when
produced by `fl`) or an IEEE special value. -/
inductive F64 where
  | finite (q : Q)
  | inf
  | neginf
  | nan
deriving DecidableEq

/-- Round a real (rational) value into binary64. -/
def fl (q : Q) : F64 :=
  if q.num = 0 then .finite (Q.ofInt 0)
  else
    let r := flAbs (Q.abs q)
    if Q.pow2Le 1024 r then (if q.num < 0 then .neginf else .inf)
    else .finite (if q.num < 0 then ⟨-r.num, r.den⟩ else r)

/-- IEEE binary64 multiplication. -/
def fmul : F64 → F64 → F64
  | .nan, _ => .nan
  | _, .nan => .nan
  | .finite a, .finite b => fl (Q.mul a b)
  | .finite a, .inf => if a.num = 0 then .nan else if a.num < 0 then .neginf else .inf
  | .finite a, .neginf => if a.num = 0 then .nan else if a.num < 0 then .inf else .neginf
  | .inf, .finite b => if b.num = 0 then .nan else if b.num < 0 then .neginf else .inf
  | .neginf, .finite b => if b.num = 0 then .nan else if b.num < 0 then .inf else .neginf
  | .inf, .inf => .inf
  | .inf, .neginf => .neginf
  | .neginf, .inf => .neginf
  | .neginf, .neginf => .inf

/-- IEEE binary64 division (a finite nonzero value divided by zero yields a
signed infinity, `0/0` yields NaN). -/
def fdiv : F64 → F64 → F64
  | .nan, _ => .nan
  | _, .nan => .nan
  | .finite a, .finite b =>
      if b.num = 0 then (if a.num = 0 then .nan else if a.num < 0 then .neginf else .inf)
      else fl (Q.div a b)
  | .finite _, .inf => .finite (Q.ofInt 0)
  | .finite _, .neginf => .finite (Q.ofInt 0)
  | .inf, .finite b => if b.num < 0 then .neginf else .inf
  | .neginf, .finite b => if b.num < 0 then .inf else .neginf
  | .inf, .inf => .nan
  | .inf, .neginf => .nan
  | .neginf, .inf => .nan
  | .neginf, .neginf => .nan

/-- Truncation toward zero of a rational with positive denominator. -/
def truncQ (q : Q) : ℤ :=
  if 0 ≤ q.num then Q.floor q else -(Q.floor ⟨-q.num, q.den⟩)

/-- Rust's saturating `as i64` cast from `f64`: truncate toward zero, clamp to
the `i64` range, NaN maps to `0`. -/
def toI64 : F64 → ℤ
  | .nan => 0
  | .inf => pow2 63 - 1
  | .neginf => -pow2 63
  | .finite q => max (-pow2 63) (min (pow2 63 - 1) (truncQ q))

/-- Lines 75 and 86 of `video.rs`:
`let time: f64 = (layer.frame as f64) / (video_fps as f64);`
`let position = (time * time_base.1 as f64 / time_base.0 as f64) as i64;`
(`time_base.0` is the numerator of the stream time base, `time_base.1` its
denominator). -/
def positionF64 (frame fps : ℕ) (tbNum tbDen : ℤ) : ℤ :=
  let time := fdiv (fl (Q.ofInt frame)) (fl (Q.ofInt fps))
  toI64 (fdiv (fmul time (fl (Q.ofInt tbDen))) (fl (Q.ofInt tbNum)))

/-- Line 45 of `video.rs` (batch path):
`let position = (first_frame as f64 * time_base.1 as f64 / time_base.0 as f64) as i64;` -/
def batchPosition (firstFrame : ℕ) (tbNum tbDen : ℤ) : ℤ :=
  toI64 (fdiv (fmul (fl (Q.ofInt firstFrame)) (fl (Q.ofInt tbDen))) (fl (Q.ofInt tbNum)))

/-! ## Data model for the decode engine -/

/-- A container-level packet: the index of the stream it belongs to and its
optional decode timestamp (`packet.dts()` returns `Option<i64>`). -/
structure Packet where
  streamIndex : ℕ
  dts : Option ℤ
deriving DecidableEq

/-- A decoded frame, identified opaquely; its pixel content only matters
through the scaler oracle. -/
abbrev Frame := ℕ

/-- A converted (scaled) frame as the packing loop sees it: plane-0 bytes,
stride, and the frame's width and height (lines 113–115 read
`rgb_frame.stride(0)`, `rgb_frame.width()`, `rgb_frame.height()`). -/
structure ConvFrame where
  data : List ℕ
  stride : ℕ
  width : ℕ
  height : ℕ
deriving DecidableEq

/-- An ffmpeg error as the loop classifies it: `eagain` is the error whose
string rendering contains "Resource temporarily unavailable" (line 140); any
other error is `other`. -/
inductive FErr where
  | eagain
  | other
deriving DecidableEq

/-- The ffmpeg environment for one `get_video_frame` call.  The decoder is
stateful; its state is the sequence of packets sent to it so far, and the
`receive` oracle maps that state to the outcome of `receive_frame`. -/
structure Env where
  /-- Whether `ffmpeg::init()` succeeds (line 73 unwraps it). -/
  initOk : Bool
  /-- first `ffmpeg::format::input(&layer.src)` (line 78) succeeds. -/
  open1Ok : Bool
  /-- second `ffmpeg::format::input(&layer.src)` (line 79) succeeds. -/
  open2Ok : Bool
  /-- the first stream with medium `Type::Video`, if any: its index and its
  time base `(numerator, denominator)` (lines 81–85, 90). -/
  videoStream : Option (ℕ × ℤ × ℤ)
  /-- Whether `input.seek(position, ..position)` (line 88) succeeds. -/
  seekOk : Bool
  /-- Whether `codec::context::Context::from_parameters` (line 91) succeeds. -/
  ctxOk : Bool
  /-- Whether `context_decoder.decoder().video()` (line 93) succeeds. -/
  decOk : Bool
  /-- Whether `scaling::Context::get(...)` (lines 95–103) succeeds. -/
  scalerOk : Bool
  /-- result of `decoder.send_packet(&packet)` (line 135) given the packets
  already sent. -/
  sendOk : List Packet → Packet → Bool
  /-- result of `decoder.receive_frame(&mut input)` (line 108) given the
  packets sent so far. -/
  receive : List Packet → Except FErr Frame
  /-- result of `scaler.run(&input, &mut rgb_frame)` (line 110). -/
  scale : Frame → Except FErr ConvFrame
  /-- the packets yielded by `input.packets()` (line 128), in order. -/
  packets : List Packet

/-! ## Buffer packing (lines 113–121)

```text
let stride = rgb_frame.stride(0);
let byte_width: usize = 3 * rgb_frame.width() as usize;
let height: usize = rgb_frame.height() as usize;
let mut new_data: Vec<u8> = Vec::with_capacity(byte_width * height);
for line in 0..height {
    let begin = line * stride;
    let end = begin + byte_width;
    new_data.append(&mut rgb_frame.data(0)[begin..end].to_vec());
}
```

A slice `data[begin..end]` with `end > data.len()` panics; `rowsFrom` returns
`none` in that case. -/

/-- The rows copied by the loop, starting at row `line`, for `n` more rows. -/
def rowsFrom (data : List ℕ) (stride bw : ℕ) : ℕ → ℕ → Option (List (List ℕ))
  | _, 0 => some []
  | line, n + 1 =>
      if line * stride + bw ≤ data.length then
        (rowsFrom data stride bw (line + 1) n).map
          (fun rs => ((data.drop (line * stride)).take bw) :: rs)
      else none

/-- The packed buffer produced from a converted frame, or `none` if the slice
indexing would panic. -/
def packFrame (data : List ℕ) (stride width height : ℕ) : Option (List ℕ) :=
  (rowsFrom data stride (3 * width) 0 height).map List.flatten

/-- Result of one run of the `process_frame` closure (lines 105–124). -/
inductive PFRes where
  /-- Case where `receive_frame` or `scaler.run` returned `Err` (propagated by `?`
  inside the closure). -/
  | errF (e : FErr)
  /-- the row-slice indexing panicked. -/
  | panicSlice
  /-- the packed buffer. -/
  | okB (b : List ℕ)
deriving DecidableEq

/-- The `process_frame` closure: receive a frame from the decoder (whose
state is `sent`, the packets fed so far), scale it, strip the stride. -/
def process_frame (env : Env) (sent : List Packet) : PFRes :=
  match env.receive sent with
  | .error e => .errF e
  | .ok f =>
    match env.scale f with
    | .error e => .errF e
    | .ok cf =>
      match packFrame cf.data cf.stride cf.width cf.height with
      | none => .panicSlice
      | some b => .okB b

/-! ## The decode loops (lines 126–151)

```text
for (stream, packet) in input.packets() {
    if stream.index() == stream_index {
        // -1 because uf 67 and we want to process 66.66 -> rounding error
        if (packet.dts().unwrap() - 1) > position {
            break;
        }
        loop {
            decoder.send_packet(&packet)?;
            let rgb_frame = process_frame(&mut decoder);
            if rgb_frame.is_err() {
                let err = rgb_frame.err().unwrap();
                if err.to_string().contains("Resource temporarily unavailable") {
                    // Need to send another packet
                } else {
                    handle_error(&err);
                }
            } else {
                frame = rgb_frame.unwrap();
                break;
            }
        }
    }
}
```

The inner `loop` has no bound: both error branches fall through to the next
iteration, which re-sends the *same* packet.  It is modelled with fuel;
running out of fuel (`spin`) witnesses that the loop reached that many
iterations without exiting.  `handle_error` is not part of this repository's
sources; the spec describes non-fatal decode errors as logged on a diagnostic
side channel, so it is modelled (from the spec) as appending the error to a
diagnostic log and returning. -/

/-- Result of the inner decode `loop` for one packet. -/
inductive InnerRes where
  /-- fuel exhausted: the loop is still running after `fuel` iterations. -/
  | spin (sent : List Packet) (log : List FErr)
  /-- Case where `decoder.send_packet(&packet)?` returned `Err`, propagated to the
  caller (line 135). -/
  | sendFail (sent : List Packet) (log : List FErr)
  /-- the packing slice panicked. -/
  | panicked (sent : List Packet) (log : List FErr)
  /-- a frame was produced; `break` with the packed bytes (lines 146–147). -/
  | done (sent : List Packet) (log : List FErr) (bytes : List ℕ)
deriving DecidableEq

/-- The inner decode `loop` (lines 134–149): send the packet, try to receive;
on success break with the bytes; on any error — "try again" or otherwise —
loop again, re-sending the same packet (on a non-eagain error, first report
it on the diagnostic log, modelling `handle_error`). -/
def innerLoop (env : Env) : ℕ → List Packet → List FErr → Packet → InnerRes
  | 0, sent, log, _ => .spin sent log
  | fuel + 1, sent, log, p =>
      if env.sendOk sent p then
        match process_frame env (sent ++ [p]) with
        | .okB b => .done (sent ++ [p]) log b
        | .panicSlice => .panicked (sent ++ [p]) log
        | .errF .eagain => innerLoop env fuel (sent ++ [p]) log p
        | .errF .other => innerLoop env fuel (sent ++ [p]) (log ++ [FErr.other]) p
      else .sendFail sent log

/-- Result of the outer packet loop. -/
inductive OuterRes where
  /-- the `for` loop ended (overshoot `break` or packets exhausted); `frame`
  is the current value of the `frame` variable. -/
  | finished (sent : List Packet) (log : List FErr) (frame : List ℕ)
  /-- Case where `packet.dts().unwrap()` panicked on a `None` timestamp (line 131). -/
  | panicDts (sent : List Packet) (log : List FErr)
  /-- the packing slice panicked. -/
  | panicked (sent : List Packet) (log : List FErr)
  /-- Case where `send_packet` failed; the error propagates out of the function. -/
  | sendFail (sent : List Packet) (log : List FErr)
  /-- the inner loop exceeded its fuel. -/
  | diverge (sent : List Packet) (log : List FErr)
deriving DecidableEq

/-- The outer packet loop (lines 128–151): skip packets of other streams;
for a packet of the selected stream, `break` if `dts - 1 > position`,
otherwise run the inner decode loop; a produced frame replaces the `frame`
variable and iteration continues with the remaining packets. -/
def outerLoop (env : Env) (streamIndex : ℕ) (position : ℤ) (fuel : ℕ) :
    List Packet → List Packet → List FErr → List ℕ → OuterRes
  | [], sent, log, frame => .finished sent log frame
  | p :: rest, sent, log, frame =>
      if p.streamIndex = streamIndex then
        match p.dts with
        | none => .panicDts sent log
        | some d =>
          if d - 1 > position then .finished sent log frame
          else
            match innerLoop env fuel sent log p with
            | .spin s l => .diverge s l
            | .sendFail s l => .sendFail s l
            | .panicked s l => .panicked s l
            | .done s l b => outerLoop env streamIndex position fuel rest s l b
      else outerLoop env streamIndex position fuel rest sent log frame

/-- Typed failures `get_video_frame` can return (each is converted to a
`std::io::Error` by the `?` operator or built directly at lines 154–157). -/
inductive VErr where
  | openErr
  | streamNotFound
  | seekErr
  | setupErr
  | sendErr
  | noFrame
deriving DecidableEq

/-- Observable outcome of a `get_video_frame` call. -/
inductive Outcome where
  /-- the process aborts (an `unwrap` panicked). -/
  | panic
  /-- the inner decode loop exceeded its fuel (potential non-termination). -/
  | diverge
  /-- Case where `Err(...)` is returned to the caller. -/
  | failure (e : VErr)
  /-- Case where `Ok(bytes)` is returned to the caller. -/
  | ok (bytes : List ℕ)
deriving DecidableEq

/-- The `VideoLayer` payload fields `get_video_frame` reads (`src`, `frame`,
`width`, `height`); the payload type itself lives outside this file's
sources. -/
structure VideoLayer where
  src : String
  frame : ℕ
  width : ℕ
  height : ℕ

/-- Model of `get_video_frame` (lines 72–162), sequenced exactly as in the
source: init (unwrap), the two container opens (`?`), video-stream lookup
(`ok_or(...)?`), position computation, seek (`?`), decoder and scaler
construction (`?`), the packet loop, and the final empty-buffer check. -/
def get_video_frame (env : Env) (layer : VideoLayer) (video_fps : ℕ) (fuel : ℕ) : Outcome :=
  if !env.initOk then .panic
  else if !env.open1Ok then .failure .openErr
  else if !env.open2Ok then .failure .openErr
  else
    match env.videoStream with
    | none => .failure .streamNotFound
    | some (sIdx, tbNum, tbDen) =>
      let position := positionF64 layer.frame video_fps tbNum tbDen
      if !env.seekOk then .failure .seekErr
      else if !env.ctxOk then .failure .setupErr
      else if !env.decOk then .failure .setupErr
      else if !env.scalerOk then .failure .setupErr
      else
        match outerLoop env sIdx position fuel env.packets [] [] [] with
        | .finished _ _ frame =>
            if frame.length = 0 then .failure .noFrame else .ok frame
        | .panicDts _ _ => .panic
        | .panicked _ _ => .panic
        | .sendFail _ _ => .failure .sendErr
        | .diverge _ _ => .diverge

/-! ## The batch pre-seek entry point `process_frames` (lines 20–70)

Only the sequential pre-seek loop is modelled; the spawned worker thread and
the message channel (lines 54–69) are concurrency outside the shallow
embedding, and nothing below depends on them.  Every fallible step in the
loop is `unwrap`ped in the source, so every failure is a panic.  The
`HashMap` iteration order is abstracted as the order of an association
list. -/

structure BatchEnv where
  /-- Whether `ffmpeg::init()` succeeds (line 26 unwraps it). -/
  initOk : Bool
  /-- Whether `ffmpeg::format::input(&src)` succeeds for this source (line 38). -/
  openOk : String → Bool
  /-- the video stream of this source, if any: its time base
  `(numerator, denominator)` (lines 39–43). -/
  stream : String → Option (ℤ × ℤ)
  /-- Whether `stream_input.seek(position, ..position)` succeeds (line 47). -/
  seekOk : String → ℤ → Bool

/-- Observable outcome of a `process_frames` call. -/
inductive BatchRes where
  /-- the process aborts (an `unwrap` panicked). -/
  | panic
  /-- the function returns the `(Sender, Receiver)` channel pair. -/
  | channels
deriving DecidableEq

/-- The per-source pre-seek loop (lines 29–52).  For each entry: take the
first key of the frame map (`frames.next().unwrap()` — panics when the map
is empty), open the source, find its video stream, compute the position and
seek, each `unwrap`ped. -/
def seekAll (env : BatchEnv) : List (String × List ℕ) → BatchRes
  | [] => .channels
  | (src, frames) :: rest =>
      match frames with
      | [] => .panic
      | firstFrame :: _ =>
          if env.openOk src then
            match env.stream src with
            | none => .panic
            | some (tbNum, tbDen) =>
                if env.seekOk src (batchPosition firstFrame tbNum tbDen) then
                  seekAll env rest
                else .panic
          else .panic

/-- Model of `process_frames` (lines 20–70): init (unwrap), then the
pre-seek loop; on completion the channel pair is returned. -/
def process_frames (env : BatchEnv) (video_signals : List (String × List ℕ)) : BatchRes :=
  if !env.initOk then .panic else seekAll env video_signals

/-- One batch entry is processed without panicking: its frame set is
non-empty and the open, stream lookup and seek for it succeed. -/
def entryOk (env : BatchEnv) : String × List ℕ → Prop
  | (src, frames) =>
    match frames with
    | [] => False
    | firstFrame :: _ =>
        env.openOk src = true ∧
        match env.stream src with
        | none => False
        | some (tbNum, tbDen) => env.seekOk src (batchPosition firstFrame tbNum tbDen) = true

/-- Scaler well-formedness (an ffmpeg invariant, not checked by `video.rs`):
every converted frame's row slices lie inside its plane-0 buffer. -/
def scaleWF (env : Env) : Prop :=
  ∀ f cf, env.scale f = Except.ok cf →
    ∀ i, i < cf.height → i * cf.stride + 3 * cf.width ≤ cf.data.length

/-- Scaler dimension contract (an ffmpeg invariant, not checked by
`video.rs`): the scaler built with target dimensions `w × h` produces
converted frames of exactly those dimensions. -/
def scaleDims (env : Env) (w h : ℕ) : Prop :=
  ∀ f cf, env.scale f = Except.ok cf → cf.width = w ∧ cf.height = h

/-! ## Trace projections -/

/-- The packets sent to the decoder at the point an inner-loop result was
produced. -/
def InnerRes.sent : InnerRes → List Packet
  | .spin s _ => s
  | .sendFail s _ => s
  | .panicked s _ => s
  | .done s _ _ => s

/-- The packets sent to the decoder at the point an outer-loop result was
produced. -/
def OuterRes.sent : OuterRes → List Packet
  | .finished s _ _ => s
  | .panicDts s _ => s
  | .panicked s _ => s
  | .sendFail s _ => s
  | .diverge s _ => s

/-! ## Concrete test fixtures (used by witnesses and counterexamples) -/

/-- A video-stream packet with decode timestamp 0. -/
def pkt0 : Packet := ⟨0, some 0⟩

/-- A video-stream packet with decode timestamp 1. -/
def pkt1 : Packet := ⟨0, some 1⟩

/-- A video-stream packet with no decode timestamp. -/
def pktNone : Packet := ⟨0, none⟩

/-- A converted 2×2 frame whose stride (7) exceeds the logical row byte
width (6), with recognisable byte values. -/
def cfTest : ConvFrame := ⟨List.range 14, 7, 2, 2⟩

/-- The packed bytes of `cfTest`: rows `[0,6)` and `[7,13)` of its data. -/
def bytes12 : List ℕ := [0, 1, 2, 3, 4, 5, 7, 8, 9, 10, 11, 12]

/-- Environment whose decoder yields a frame on every receive. -/
def envDecode (ps : List Packet) : Env :=
  { initOk := true, open1Ok := true, open2Ok := true,
    videoStream := some (0, 1, 1), seekOk := true, ctxOk := true,
    decOk := true, scalerOk := true,
    sendOk := fun _ _ => true,
    receive := fun _ => .ok 0,
    scale := fun _ => .ok cfTest,
    packets := ps }

/-- Environment whose decoder always reports the "try again" condition. -/
def envEagain (ps : List Packet) : Env :=
  { envDecode ps with receive := fun _ => .error .eagain }

/-- Environment whose decoder always reports a non-"try again" error. -/
def envErrOther (ps : List Packet) : Env :=
  { envDecode ps with receive := fun _ => .error .other }

/-- A 2×2 output request for source `"video.mp4"`, frame 0. -/
def layer22 : VideoLayer := ⟨"video.mp4", 0, 2, 2⟩

/-- A batch environment in which every open, stream lookup and seek
succeeds, with time base `1/1`. -/
def envBatch : BatchEnv :=
  { initOk := true, openOk := fun _ => true,
    stream := fun _ => some (1, 1), seekOk := fun _ _ => true }

end RemotionVideo

namespace RemotionVideo

/-! ## Packing lemmas -/

/-- Inversion for `rowsFrom`: a successful run yields exactly the mapped row
slices, and every row's slice stayed within the buffer. -/
theorem rowsFrom_eq_map {data : List ℕ} {stride bw : ℕ} :
    ∀ {n line rs}, rowsFrom data stride bw line n = some rs →
      rs = (List.range n).map (fun i => (data.drop ((line + i) * stride)).take bw) ∧
      ∀ i, i < n → (line + i) * stride + bw ≤ data.length := by
  intro n
  induction n with
  | zero =>
    intro line rs h
    simp only [rowsFrom, Option.some.injEq] at h
    subst h
    simp
  | succ n ih =>
    intro line rs h
    simp only [rowsFrom] at h
    split at h
    case isTrue hin =>
      cases hrec : rowsFrom data stride bw (line + 1) n with
      | none => rw [hrec] at h; simp at h
      | some rs2 =>
        rw [hrec] at h
        simp only [Option.map_some', Option.some.injEq] at h
        obtain ⟨hmap, hbound⟩ := ih hrec
        constructor
        · rw [← h, hmap, List.range_succ_eq_map, List.map_cons, List.map_map]
          congr 1
          apply List.map_congr_left
          intro i _
          have harg : line + 1 + i = line + Nat.succ i := by omega
          simp [Function.comp, harg]
        · intro i hi
          cases i with
          | zero => simpa using hin
          | succ j =>
            have harg : line + 1 + j = line + Nat.succ j := by omega
            have := hbound j (by omega)
            rw [harg] at this
            exact this
    case isFalse => exact absurd h (by simp)

/-- Extracting row `i` out of the flattening of uniform-length rows. -/
theorem flatten_take_drop {bw : ℕ} :
    ∀ (rs : List (List ℕ)) (i : ℕ) (r : List ℕ),
      (∀ x ∈ rs, x.length = bw) → rs[i]? = some r →
      ((rs.flatten).drop (i * bw)).take bw = r := by
  intro rs
  induction rs with
  | nil => intro i r _ h; simp at h
  | cons a t ih =>
    intro i r hlen hget
    have ha : a.length = bw := hlen a (by simp)
    cases i with
    | zero =>
      simp only [List.getElem?_cons_zero, Option.some.injEq] at hget
      subst hget
      rw [List.flatten_cons, Nat.zero_mul, List.drop_zero, ← ha, List.take_left]
    | succ i =>
      rw [List.flatten_cons]
      have hsplit : (i + 1) * bw = a.length + i * bw := by rw [ha]; ring
      rw [hsplit, List.drop_append]
      exact ih i r (fun x hx => hlen x (by simp [hx])) (by simpa using hget)

/-- Inversion for `packFrame`: a successful pack has exactly
`3 * width * height` bytes and row `i` of the output is the slice
`[i*stride, i*stride + 3*width)` of the converted frame's bytes. -/
theorem packFrame_some {data : List ℕ} {stride width height : ℕ} {b : List ℕ}
    (h : packFrame data stride width height = some b) :
    b.length = 3 * width * height ∧
    ∀ i, i < height →
      (b.drop (i * (3 * width))).take (3 * width) =
      (data.drop (i * stride)).take (3 * width) := by
  unfold packFrame at h
  cases hrows : rowsFrom data stride (3 * width) 0 height with
  | none => rw [hrows] at h; simp at h
  | some rs =>
    rw [hrows] at h
    simp only [Option.map_some', Option.some.injEq] at h
    subst h
    obtain ⟨hmap, hbound⟩ := rowsFrom_eq_map hrows
    have hlen : ∀ x ∈ rs, x.length = 3 * width := by
      intro x hx
      rw [hmap] at hx
      simp only [List.mem_map, List.mem_range] at hx
      obtain ⟨i, hi, rfl⟩ := hx
      have := hbound i hi
      rw [List.length_take, List.length_drop]
      omega
    constructor
    · rw [List.length_flatten]
      have hrep : rs.map List.length = List.replicate height (3 * width) := by
        have h1 : rs.map List.length = rs.map (fun _ => 3 * width) :=
          List.map_congr_left hlen
        rw [h1, List.map_const']
        have h2 : rs.length = height := by rw [hmap]; simp
        rw [h2]
      rw [hrep, List.sum_replicate, smul_eq_mul]
      ring
    · intro i hi
      have hget : rs[i]? = some ((data.drop (i * stride)).take (3 * width)) := by
        rw [hmap, List.getElem?_map, List.getElem?_range hi]
        simp
      exact flatten_take_drop rs i _ hlen hget

end RemotionVideo

namespace RemotionVideo

/-! ## Decode-engine lemmas -/

/-- Inversion for the `process_frame` closure: a packed buffer comes from a
received frame that was scaled and packed successfully. -/
theorem process_frame_okB {env : Env} {sent : List Packet} {b : List ℕ}
    (h : process_frame env sent = .okB b) :
    ∃ f cf, env.receive sent = .ok f ∧ env.scale f = .ok cf ∧
      packFrame cf.data cf.stride cf.width cf.height = some b := by
  unfold process_frame at h
  split at h
  next e hr => cases h
  next f hr =>
    split at h
    next e2 hs => cases h
    next cf hs =>
      split at h
      next hp => cases h
      next b2 hp => cases h; exact ⟨f, cf, hr, hs, hp⟩

/-- Inversion for the inner decode loop: the bytes of a `done` result were
produced by `process_frame` for some decoder state. -/
theorem innerLoop_done {env : Env} :
    ∀ {fuel : ℕ} {sent : List Packet} {log : List FErr} {p : Packet}
      {s : List Packet} {l : List FErr} {b : List ℕ},
      innerLoop env fuel sent log p = .done s l b →
      ∃ sent2, process_frame env sent2 = .okB b := by
  intro fuel
  induction fuel with
  | zero => intro sent log p s l b h; cases h
  | succ fuel ih =>
    intro sent log p s l b h
    unfold innerLoop at h
    split at h
    case isTrue hsend =>
      cases hpf : process_frame env (sent ++ [p]) with
      | okB b2 => rw [hpf] at h; cases h; exact ⟨sent ++ [p], hpf⟩
      | panicSlice => rw [hpf] at h; cases h
      | errF e =>
        rw [hpf] at h
        cases e with
        | eagain => exact ih h
        | other => exact ih h
    case isFalse => cases h

/-- Inversion for the outer packet loop: the `frame` carried by a `finished`
result is either the initial one or the output of a successful
`process_frame`. -/
theorem outerLoop_finished {env : Env} {sIdx : ℕ} {pos : ℤ} {fuel : ℕ} :
    ∀ {ps sent : List Packet} {log : List FErr} {frame : List ℕ}
      {s : List Packet} {l : List FErr} {b : List ℕ},
      outerLoop env sIdx pos fuel ps sent log frame = .finished s l b →
      b = frame ∨ ∃ sent2, process_frame env sent2 = .okB b := by
  intro ps
  induction ps with
  | nil =>
    intro sent log frame s l b h
    cases h
    exact Or.inl rfl
  | cons p rest ih =>
    intro sent log frame s l b h
    unfold outerLoop at h
    split at h
    case isTrue hstream =>
      split at h
      next hdts => cases h
      next d hdts =>
        split at h
        case isTrue => cases h; exact Or.inl rfl
        case isFalse =>
          split at h
          next s2 l2 hil => cases h
          next s2 l2 hil => cases h
          next s2 l2 hil => cases h
          next s2 l2 b2 hil =>
            cases ih h with
            | inl hb => exact Or.inr (hb ▸ innerLoop_done hil)
            | inr hex => exact Or.inr hex
    case isFalse => exact ih h

/-- Inversion for a successful `get_video_frame` call: all pre-loop stages
passed, the packet loop finished with the returned (non-empty) bytes. -/
theorem get_video_frame_ok {env : Env} {layer : VideoLayer} {fps fuel : ℕ}
    {b : List ℕ} (h : get_video_frame env layer fps fuel = .ok b) :
    ∃ sIdx tbNum tbDen s l,
      env.videoStream = some (sIdx, tbNum, tbDen) ∧
      outerLoop env sIdx (positionF64 layer.frame fps tbNum tbDen) fuel
        env.packets [] [] [] = .finished s l b ∧
      b.length ≠ 0 := by
  unfold get_video_frame at h
  cases hi : env.initOk with
  | false => rw [hi] at h; cases h
  | true =>
    rw [hi] at h
    cases ho1 : env.open1Ok with
    | false => rw [ho1] at h; cases h
    | true =>
      rw [ho1] at h
      cases ho2 : env.open2Ok with
      | false => rw [ho2] at h; cases h
      | true =>
        rw [ho2] at h
        simp only [Bool.not_true, Bool.false_eq_true, if_false] at h
        cases hvs : env.videoStream with
        | none => rw [hvs] at h; cases h
        | some t =>
          rw [hvs] at h
          obtain ⟨sIdx, tbNum, tbDen⟩ := t
          cases hs : env.seekOk with
          | false => rw [hs] at h; cases h
          | true =>
            rw [hs] at h
            cases hc : env.ctxOk with
            | false => rw [hc] at h; cases h
            | true =>
              rw [hc] at h
              cases hd : env.decOk with
              | false => rw [hd] at h; cases h
              | true =>
                rw [hd] at h
                cases hsc : env.scalerOk with
                | false => rw [hsc] at h; cases h
                | true =>
                  rw [hsc] at h
                  simp only [Bool.not_true, Bool.false_eq_true, if_false] at h
                  cases hout : outerLoop env sIdx
                      (positionF64 layer.frame fps tbNum tbDen) fuel
                      env.packets [] [] [] with
                  | finished s l frame =>
                    rw [hout] at h
                    by_cases hlen : frame.length = 0
                    · simp [hlen] at h
                    · simp [hlen] at h
                      exact ⟨sIdx, tbNum, tbDen, s, l, rfl, h ▸ hout, h ▸ hlen⟩
                  | panicDts s l => rw [hout] at h; cases h
                  | panicked s l => rw [hout] at h; cases h
                  | sendFail s l => rw [hout] at h; cases h
                  | diverge s l => rw [hout] at h; cases h

end RemotionVideo

namespace RemotionVideo

/-- The inner loop only ever appends to the sent trace. -/
theorem innerLoop_sent_mono {env : Env} :
    ∀ {fuel : ℕ} {sent : List Packet} {log : List FErr} {p : Packet},
      sent <+: (innerLoop env fuel sent log p).sent := by
  intro fuel
  induction fuel with
  | zero => intro sent log p; exact List.prefix_refl sent
  | succ fuel ih =>
    intro sent log p
    unfold innerLoop
    split
    case isTrue hsend =>
      cases hpf : process_frame env (sent ++ [p]) with
      | okB b => exact List.prefix_append sent [p]
      | panicSlice => exact List.prefix_append sent [p]
      | errF e =>
        cases e with
        | eagain => exact (List.prefix_append sent [p]).trans ih
        | other => exact (List.prefix_append sent [p]).trans ih
    case isFalse => exact List.prefix_refl sent

/-- With fuel available and a successful send, the inner loop feeds its
packet to the decoder: the trace of its result extends `sent ++ [p]`. -/
theorem innerLoop_feeds {env : Env} {fuel : ℕ} {sent : List Packet}
    {log : List FErr} {p : Packet} (hfuel : 0 < fuel)
    (hsend : env.sendOk sent p = true) :
    (sent ++ [p]) <+: (innerLoop env fuel sent log p).sent := by
  cases fuel with
  | zero => exact absurd hfuel (by omega)
  | succ fuel =>
    unfold innerLoop
    rw [hsend]
    simp only [if_true]
    cases hpf : process_frame env (sent ++ [p]) with
    | okB b => exact List.prefix_refl _
    | panicSlice => exact List.prefix_refl _
    | errF e =>
      cases e with
      | eagain => exact innerLoop_sent_mono
      | other => exact innerLoop_sent_mono

/-- The outer loop only ever appends to the sent trace. -/
theorem outerLoop_sent_mono {env : Env} {sIdx : ℕ} {pos : ℤ} {fuel : ℕ} :
    ∀ {ps sent : List Packet} {log : List FErr} {frame : List ℕ},
      sent <+: (outerLoop env sIdx pos fuel ps sent log frame).sent := by
  intro ps
  induction ps with
  | nil => intro sent log frame; exact List.prefix_refl sent
  | cons p rest ih =>
    intro sent log frame
    unfold outerLoop
    split
    case isTrue hstream =>
      cases hdts : p.dts with
      | none => exact List.prefix_refl sent
      | some d =>
        dsimp only
        by_cases hov : d - 1 > pos
        · rw [if_pos hov]
          exact List.prefix_refl sent
        · rw [if_neg hov]
          cases hil : innerLoop env fuel sent log p with
          | spin s2 l2 =>
            have := @innerLoop_sent_mono env fuel sent log p
            rw [hil] at this
            exact this
          | sendFail s2 l2 =>
            have := @innerLoop_sent_mono env fuel sent log p
            rw [hil] at this
            exact this
          | panicked s2 l2 =>
            have := @innerLoop_sent_mono env fuel sent log p
            rw [hil] at this
            exact this
          | done s2 l2 b2 =>
            have h1 := @innerLoop_sent_mono env fuel sent log p
            rw [hil] at h1
            exact List.IsPrefix.trans h1 ih
    case isFalse => exact ih

end RemotionVideo

namespace RemotionVideo

/-! ## Panic-freedom lemmas -/

/-- If every row slice is in range, `rowsFrom` succeeds. -/
theorem rowsFrom_isSome {data : List ℕ} {stride bw : ℕ} :
    ∀ {n line : ℕ}, (∀ i, i < n → (line + i) * stride + bw ≤ data.length) →
      (rowsFrom data stride bw line n).isSome := by
  intro n
  induction n with
  | zero => intro line _; simp [rowsFrom]
  | succ n ih =>
    intro line hb
    have h0 : line * stride + bw ≤ data.length := by simpa using hb 0 (by omega)
    have hrest : ∀ i, i < n → (line + 1 + i) * stride + bw ≤ data.length := by
      intro i hi
      have harg : line + 1 + i = line + (i + 1) := by omega
      rw [harg]
      exact hb (i + 1) (by omega)
    unfold rowsFrom
    rw [if_pos h0]
    cases hrec : rowsFrom data stride bw (line + 1) n with
    | none =>
      have := ih hrest
      rw [hrec] at this
      cases this
    | some rs => simp

/-- If every row slice is in range, `packFrame` succeeds. -/
theorem packFrame_isSome {data : List ℕ} {stride width height : ℕ}
    (h : ∀ i, i < height → i * stride + 3 * width ≤ data.length) :
    (packFrame data stride width height).isSome := by
  unfold packFrame
  have := @rowsFrom_isSome data stride (3 * width) height 0 (by simpa using h)
  cases hrows : rowsFrom data stride (3 * width) 0 height with
  | none => rw [hrows] at this; cases this
  | some rs => simp

/-- Under the scaler buffer invariant, `process_frame` never panics on the
row slices. -/
theorem process_frame_no_panic {env : Env} (hwf : scaleWF env)
    (sent : List Packet) : process_frame env sent ≠ .panicSlice := by
  unfold process_frame
  cases hr : env.receive sent with
  | error e => simp
  | ok f =>
    dsimp only
    cases hs : env.scale f with
    | error e => simp
    | ok cf =>
      dsimp only
      have := packFrame_isSome (hwf f cf hs)
      cases hp : packFrame cf.data cf.stride cf.width cf.height with
      | none => rw [hp] at this; cases this
      | some b => simp

/-- Under the scaler buffer invariant, the inner loop never reports a
packing panic. -/
theorem innerLoop_no_panic {env : Env} (hwf : scaleWF env) :
    ∀ {fuel : ℕ} {sent : List Packet} {log : List FErr} {p : Packet}
      {s : List Packet} {l : List FErr},
      innerLoop env fuel sent log p ≠ .panicked s l := by
  intro fuel
  induction fuel with
  | zero => intro sent log p s l h; cases h
  | succ fuel ih =>
    intro sent log p s l h
    unfold innerLoop at h
    split at h
    case isTrue hsend =>
      cases hpf : process_frame env (sent ++ [p]) with
      | okB b => rw [hpf] at h; cases h
      | panicSlice => exact process_frame_no_panic hwf (sent ++ [p]) hpf
      | errF e =>
        rw [hpf] at h
        cases e with
        | eagain => exact ih h
        | other => exact ih h
    case isFalse => cases h

/-- Under the scaler buffer invariant and with decode timestamps present on
all selected-stream packets, the outer loop never panics. -/
theorem outerLoop_no_panic {env : Env} {sIdx : ℕ} {pos : ℤ} {fuel : ℕ}
    (hwf : scaleWF env) :
    ∀ {ps : List Packet},
      (∀ p ∈ ps, p.streamIndex = sIdx → p.dts ≠ none) →
      ∀ {sent : List Packet} {log : List FErr} {frame : List ℕ}
        {s : List Packet} {l : List FErr},
        outerLoop env sIdx pos fuel ps sent log frame ≠ .panicDts s l ∧
        outerLoop env sIdx pos fuel ps sent log frame ≠ .panicked s l := by
  intro ps
  induction ps with
  | nil =>
    intro _ sent log frame s l
    exact ⟨fun h => (nomatch h), fun h => (nomatch h)⟩
  | cons p rest ih =>
    intro hdts sent log frame s l
    have hrest : ∀ q ∈ rest, q.streamIndex = sIdx → q.dts ≠ none := by
      intro q hq
      exact hdts q (by simp [hq])
    unfold outerLoop
    split
    case isTrue hstream =>
      cases hp : p.dts with
      | none =>
        exact absurd hp (hdts p (by simp) hstream)
      | some d =>
        dsimp only
        by_cases hov : d - 1 > pos
        · rw [if_pos hov]
          exact ⟨fun h => (nomatch h), fun h => (nomatch h)⟩
        · rw [if_neg hov]
          cases hil : innerLoop env fuel sent log p with
          | spin s2 l2 => exact ⟨fun h => (nomatch h), fun h => (nomatch h)⟩
          | sendFail s2 l2 => exact ⟨fun h => (nomatch h), fun h => (nomatch h)⟩
          | panicked s2 l2 => exact absurd hil (innerLoop_no_panic hwf)
          | done s2 l2 b2 => exact ih hrest
    case isFalse => exact ih hrest

end RemotionVideo

namespace RemotionVideo

/-! ## Arithmetic lemmas for the float model -/

theorem pow2_pos (n : ℕ) : 0 < pow2 n := by
  unfold pow2
  exact_mod_cast Nat.pos_pow_of_pos n (by omega)

theorem pow2_lt_pow2 {m n : ℕ} (h : m < n) : pow2 m < pow2 n := by
  unfold pow2
  exact_mod_cast Nat.pow_lt_pow_right (by omega) h

/-- Rounding an integer to the nearest integer is the identity. -/
theorem rneInt_int (z : ℤ) : rneInt ⟨z, 1⟩ = z := by
  unfold rneInt Q.floor
  norm_num

theorem log2fuel_le : ∀ (fuel n : ℕ), 1 ≤ n → n ≤ fuel → 2 ^ log2fuel fuel n ≤ n := by
  intro fuel
  induction fuel with
  | zero => intro n h1 h2; omega
  | succ fuel ih =>
    intro n h1 h2
    unfold log2fuel
    by_cases hn : n < 2
    · rw [if_pos hn]
      simpa using h1
    · rw [if_neg hn]
      have h3 : 1 ≤ n / 2 := by omega
      have h4 : n / 2 ≤ fuel := by omega
      have h5 := ih (n / 2) h3 h4
      have : 2 ^ (log2fuel fuel (n / 2) + 1) = 2 ^ log2fuel fuel (n / 2) * 2 := by ring
      rw [this]
      omega

/-- The function `nlog2` is a lower-bounded base-2 logarithm. -/
theorem nlog2_le {n : ℕ} (h : 1 ≤ n) : 2 ^ nlog2 n ≤ n := log2fuel_le n n h le_rfl

/-- Applying `flAbs` to a positive integer up to `2^52` is exact: positive numerator
and denominator, and no overflow. -/
theorem flAbs_ofInt_small {z : ℤ} (h1 : 0 < z) (h2 : z ≤ pow2 52) :
    0 < (flAbs ⟨z, 1⟩).num ∧ 0 < (flAbs ⟨z, 1⟩).den ∧
    ¬ Q.pow2Le 1024 (flAbs ⟨z, 1⟩) := by
  have hz1 : (1 : ℤ) ≤ z := h1
  have halog : alog2 ⟨z, 1⟩ = (nlog2 z.toNat : ℤ) := by
    unfold alog2
    rw [if_pos (by exact hz1)]
    norm_num
  set L := nlog2 z.toNat with hLdef
  have hztoNat : 1 ≤ z.toNat := by omega
  have hpowL : 2 ^ L ≤ z.toNat := nlog2_le hztoNat
  have hz52 : z.toNat ≤ 2 ^ 52 := by unfold pow2 at h2; omega
  have hL52 : L ≤ 52 := by
    by_contra hcon
    have ha : (2 : ℕ) ^ 53 ≤ 2 ^ L := Nat.pow_le_pow_right (by omega) (by omega)
    have hb : (2 : ℕ) ^ 53 ≤ 2 ^ 52 := le_trans ha (le_trans hpowL hz52)
    norm_num at hb
  unfold flAbs
  rw [halog]
  have hmax : max ((L : ℤ)) (-1022) = (L : ℤ) := max_eq_left (by omega)
  rw [hmax]
  have hscale : Q.mulPow2 ⟨z, 1⟩ (52 - (L : ℤ)) = ⟨z * pow2 (52 - L), 1⟩ := by
    unfold Q.mulPow2
    rw [if_pos (by omega)]
    have harg : ((52 : ℤ) - (L : ℤ)).toNat = 52 - L := by omega
    rw [harg]
  rw [hscale, rneInt_int]
  set m : ℤ := z * pow2 (52 - L) with hm
  have hmpos : 0 < m := mul_pos h1 (pow2_pos _)
  have hlt : pow2 52 < pow2 1024 := pow2_lt_pow2 (by omega)
  unfold Q.mulPow2 Q.ofInt
  by_cases hcase : 0 ≤ (L : ℤ) - 52
  · rw [if_pos hcase]
    dsimp only
    have htn : ((L : ℤ) - 52).toNat = 0 := by omega
    have h520 : 52 - L = 0 := by omega
    have hpz : pow2 0 = 1 := by unfold pow2; norm_num
    have hmz : m = z := by rw [hm, h520, hpz, mul_one]
    refine ⟨mul_pos hmpos (pow2_pos _), by norm_num, ?_⟩
    unfold Q.pow2Le
    rw [if_pos (by omega)]
    dsimp only
    rw [htn, hpz]
    have h1024 : ((1024 : ℤ)).toNat = 1024 := by omega
    rw [h1024]
    omega
  · rw [if_neg hcase]
    dsimp only
    refine ⟨hmpos, by simp only [one_mul]; exact pow2_pos _, ?_⟩
    unfold Q.pow2Le
    rw [if_pos (by omega)]
    dsimp only
    have htn : (-((L : ℤ) - 52)).toNat = 52 - L := by omega
    have h1024 : ((1024 : ℤ)).toNat = 1024 := by omega
    rw [htn, h1024, one_mul]
    intro hcon
    have hle2 : pow2 1024 ≤ z := by
      have hform : pow2 1024 * pow2 (52 - L) ≤ z * pow2 (52 - L) := by
        rw [← hm]
        exact hcon
      exact le_of_mul_le_mul_right hform (pow2_pos (52 - L))
    omega

/-- Applying `fl` to a positive integer up to `2^52` yields a finite value with positive
numerator and denominator. -/
theorem fl_ofInt_small {z : ℤ} (h1 : 0 < z) (h2 : z ≤ pow2 52) :
    ∃ a b, fl (Q.ofInt z) = .finite ⟨a, b⟩ ∧ 0 < a ∧ 0 < b := by
  obtain ⟨ha, hb, hov⟩ := flAbs_ofInt_small h1 h2
  unfold fl
  have habs : Q.abs (Q.ofInt z) = ⟨z, 1⟩ := by
    unfold Q.abs Q.ofInt
    simp [abs_of_pos h1]
  rw [habs]
  have hz0 : ¬ (Q.ofInt z).num = 0 := by simp only [Q.ofInt]; omega
  have hzneg : ¬ (Q.ofInt z).num < 0 := by simp only [Q.ofInt]; omega
  rw [if_neg hz0]
  rw [if_neg hov]
  rw [if_neg hzneg]
  exact ⟨(flAbs ⟨z, 1⟩).num, (flAbs ⟨z, 1⟩).den, rfl, ha, hb⟩

/-- On a nonnegative in-range finite value, the saturating cast is the
floor. -/
theorem toI64_floor {q : Q} (hn : 0 ≤ q.num) (hd : 0 < q.den)
    (hle : Q.floor q ≤ pow2 63 - 1) : toI64 (.finite q) = Q.floor q := by
  simp only [toI64, truncQ]
  rw [if_pos hn]
  have h0 : 0 ≤ Q.floor q := Int.ediv_nonneg hn (le_of_lt hd)
  have hp : 0 < pow2 63 := pow2_pos 63
  rw [min_eq_right hle, max_eq_right (by omega)]

end RemotionVideo

namespace RemotionVideo

/-! ## Claim theorems -/

/-- Claim C1: every successful `get_video_frame` call returns a tightly
packed buffer of exactly `3 * output_width * output_height` bytes, with row
`i` copied from the converted frame's bytes at offsets
`[i*stride, i*stride + 3*output_width)` — no stride padding leaks into the
output.  (Hypothesis: the scaler honours its target dimensions, an ffmpeg
contract.) -/
theorem C1_packed_buffer (env : Env) (layer : VideoLayer) (fps fuel : ℕ)
    (b : List ℕ) (hdims : scaleDims env layer.width layer.height)
    (hrun : get_video_frame env layer fps fuel = Outcome.ok b) :
    b.length = 3 * layer.width * layer.height ∧
    ∃ f cf, env.scale f = Except.ok cf ∧ cf.width = layer.width ∧
      cf.height = layer.height ∧
      ∀ i, i < layer.height →
        (b.drop (i * (3 * layer.width))).take (3 * layer.width) =
        (cf.data.drop (i * cf.stride)).take (3 * layer.width) := by
  obtain ⟨sIdx, tbNum, tbDen, s, l, hvs, hout, hne⟩ := get_video_frame_ok hrun
  rcases outerLoop_finished hout with hempty | ⟨sent2, hpf⟩
  · rw [hempty] at hne
    simp at hne
  · obtain ⟨f, cf, hr, hs, hp⟩ := process_frame_okB hpf
    obtain ⟨hw, hh⟩ := hdims f cf hs
    obtain ⟨hlen, hrows⟩ := packFrame_some hp
    refine ⟨by rw [hlen, hw, hh], f, cf, hs, hw, hh, ?_⟩
    intro i hi
    have := hrows i (by rw [hh]; exact hi)
    rw [hw] at this
    exact this

/-- Witness for C1: a concrete run with stride 7 over logical row width 6
returns the 12 logical bytes. -/
theorem C1_packed_buffer_witness :
    (scaleDims (envDecode [pkt0]) 2 2 ∧
      get_video_frame (envDecode [pkt0]) layer22 1 1 = Outcome.ok bytes12) ∧
    (bytes12.length = 3 * 2 * 2 ∧
      ∃ f cf, (envDecode [pkt0]).scale f = Except.ok cf ∧ cf.width = 2 ∧
        cf.height = 2 ∧
        ∀ i, i < 2 →
          (bytes12.drop (i * (3 * 2))).take (3 * 2) =
          (cf.data.drop (i * cf.stride)).take (3 * 2)) := by
  have hdims : scaleDims (envDecode [pkt0]) 2 2 := by
    intro f cf h
    simp only [envDecode] at h
    injection h with h2
    subst h2
    exact ⟨rfl, rfl⟩
  have hrun : get_video_frame (envDecode [pkt0]) layer22 1 1 = Outcome.ok bytes12 := by
    decide
  exact ⟨⟨hdims, hrun⟩,
    C1_packed_buffer (envDecode [pkt0]) layer22 1 1 bytes12 hdims hrun⟩

/-- Claim C2: for a selected-stream packet with decode timestamp `d`, if
`d - 1 > position` the packet loop stops at once — the packet is not fed and
the remaining packets are not read; otherwise the packet is fed to the
decoder. -/
theorem C2_overshoot_gate (env : Env) (sIdx : ℕ) (pos : ℤ) (fuel : ℕ)
    (p : Packet) (rest sent : List Packet) (log : List FErr) (frame : List ℕ)
    (d : ℤ) (hstream : p.streamIndex = sIdx) (hdts : p.dts = some d)
    (hfuel : 0 < fuel) (hsend : env.sendOk sent p = true) :
    (d - 1 > pos →
      outerLoop env sIdx pos fuel (p :: rest) sent log frame =
        .finished sent log frame) ∧
    (¬ d - 1 > pos →
      (sent ++ [p]) <+:
        (outerLoop env sIdx pos fuel (p :: rest) sent log frame).sent) := by
  constructor
  · intro hov
    unfold outerLoop
    rw [if_pos hstream, hdts]
    dsimp only
    rw [if_pos hov]
  · intro hov
    unfold outerLoop
    rw [if_pos hstream, hdts]
    dsimp only
    rw [if_neg hov]
    cases hil : innerLoop env fuel sent log p with
    | spin s2 l2 =>
      have h1 := @innerLoop_feeds env fuel sent log p hfuel hsend
      rw [hil] at h1
      exact h1
    | sendFail s2 l2 =>
      have h1 := @innerLoop_feeds env fuel sent log p hfuel hsend
      rw [hil] at h1
      exact h1
    | panicked s2 l2 =>
      have h1 := @innerLoop_feeds env fuel sent log p hfuel hsend
      rw [hil] at h1
      exact h1
    | done s2 l2 b2 =>
      have h1 := @innerLoop_feeds env fuel sent log p hfuel hsend
      rw [hil] at h1
      have h2 := @outerLoop_sent_mono env sIdx pos fuel rest s2 l2 b2
      exact h1.trans h2

/-- Witness for C2 at a concrete packet and environment. -/
theorem C2_overshoot_gate_witness :
    (pkt1.streamIndex = 0 ∧ pkt1.dts = some 1 ∧ 0 < 1 ∧
      (envDecode [pkt1]).sendOk [] pkt1 = true) ∧
    (((1 : ℤ) - 1 > 0 →
        outerLoop (envDecode [pkt1]) 0 0 1 [pkt1] [] [] [] =
          .finished [] [] []) ∧
     (¬ (1 : ℤ) - 1 > 0 →
        ([] ++ [pkt1]) <+:
          (outerLoop (envDecode [pkt1]) 0 0 1 [pkt1] [] [] []).sent)) := by
  exact ⟨by decide,
    C2_overshoot_gate (envDecode [pkt1]) 0 0 1 pkt1 [] [] [] [] 1
      (by decide) (by decide) (by decide) (by decide)⟩

/-- Claim C3 counterexample: with two packets below the target position and
a decoder that yields a frame immediately, the first packet alone already
produces a successful decode (`done` after feeding only `pkt0`), yet the
packet loop goes on to read and feed `pkt1` and only finishes at stream
exhaustion — refuting "after the first successful decode the engine reads
and feeds no further packets". -/
theorem C3_counterexample :
    innerLoop (envDecode [pkt0, pkt1]) 2 [] [] pkt0 = .done [pkt0] [] bytes12 ∧
    outerLoop (envDecode [pkt0, pkt1]) 0 0 2 [pkt0, pkt1] [] [] [] =
      .finished [pkt0, pkt1] [] bytes12 ∧
    get_video_frame (envDecode [pkt0, pkt1]) layer22 1 2 = .ok bytes12 := by
  exact ⟨by decide, by decide, by decide⟩

/-- Claim C3 (amended): a successful decode ends the *inner* loop only; the
outer packet loop continues with the remaining packets, carrying the newly
produced frame (which overwrites the previous one), and the packet loop ends
at stream exhaustion (or at an overshooting packet, per C2). -/
theorem C3_success_continues (env : Env) (sIdx : ℕ) (pos : ℤ) (fuel : ℕ)
    (p : Packet) (rest sent : List Packet) (log : List FErr) (frame : List ℕ)
    (d : ℤ) (s2 : List Packet) (l2 : List FErr) (b2 : List ℕ)
    (hstream : p.streamIndex = sIdx) (hdts : p.dts = some d)
    (hov : ¬ d - 1 > pos)
    (hil : innerLoop env fuel sent log p = .done s2 l2 b2) :
    outerLoop env sIdx pos fuel (p :: rest) sent log frame =
      outerLoop env sIdx pos fuel rest s2 l2 b2 ∧
    outerLoop env sIdx pos fuel [] s2 l2 b2 = .finished s2 l2 b2 := by
  constructor
  · conv_lhs => unfold outerLoop
    rw [if_pos hstream, hdts]
    dsimp only
    rw [if_neg hov, hil]
  · rfl

/-- Witness for the amended C3 at a concrete environment. -/
theorem C3_success_continues_witness :
    (pkt0.streamIndex = 0 ∧ pkt0.dts = some 0 ∧ ¬ (0 : ℤ) - 1 > 0 ∧
      innerLoop (envDecode [pkt0, pkt1]) 2 [] [] pkt0 = .done [pkt0] [] bytes12) ∧
    (outerLoop (envDecode [pkt0, pkt1]) 0 0 2 [pkt0, pkt1] [] [] [] =
      outerLoop (envDecode [pkt0, pkt1]) 0 0 2 [pkt1] [pkt0] [] bytes12 ∧
     outerLoop (envDecode [pkt0, pkt1]) 0 0 2 [] [pkt0] [] bytes12 =
      .finished [pkt0] [] bytes12) := by
  exact ⟨by decide,
    C3_success_continues (envDecode [pkt0, pkt1]) 0 0 2 pkt0 [pkt1] [] [] [] 0
      [pkt0] [] bytes12 (by decide) (by decide) (by decide) (by decide)⟩

/-- Claim C4 counterexample: `get_video_frame` panics (aborts the process)
on a selected-stream packet with no decode timestamp
(`packet.dts().unwrap()`, line 131) and on codec-library initialization
failure (`ffmpeg::init().unwrap()`, line 73) — refuting "no execution path
panics". -/
theorem C4_counterexample :
    get_video_frame (envDecode [pktNone]) layer22 1 1 = .panic ∧
    get_video_frame { envDecode [] with initOk := false } layer22 1 1 = .panic := by
  exact ⟨by decide, by decide⟩

end RemotionVideo

namespace RemotionVideo

/-- Claim C4 (amended): every fatal error of a fallible operation (open,
stream lookup, seek, decoder/scaler setup, packet send) is returned as a
typed failure and the function does not panic — provided codec-library
initialization succeeds, every selected-stream packet carries a decode
timestamp, and converted frames are well-formed; on those inputs the
function panics (see the counterexample). -/
theorem C4_no_panic (env : Env) (layer : VideoLayer) (fps fuel : ℕ)
    (hinit : env.initOk = true) (hwf : scaleWF env)
    (hdts : ∀ p ∈ env.packets, ∀ sIdx tbNum tbDen,
      env.videoStream = some (sIdx, tbNum, tbDen) → p.streamIndex = sIdx →
        p.dts ≠ none) :
    get_video_frame env layer fps fuel ≠ .panic := by
  unfold get_video_frame
  simp only [hinit, Bool.not_true, Bool.false_eq_true, if_false]
  cases ho1 : env.open1Ok with
  | false => simp
  | true =>
    simp only [Bool.not_true, Bool.false_eq_true, if_false]
    cases ho2 : env.open2Ok with
    | false => simp
    | true =>
      simp only [Bool.not_true, Bool.false_eq_true, if_false]
      cases hvs : env.videoStream with
      | none => simp
      | some t =>
        obtain ⟨sIdx, tbNum, tbDen⟩ := t
        dsimp only
        cases hs : env.seekOk with
        | false => simp
        | true =>
          simp only [Bool.not_true, Bool.false_eq_true, if_false]
          cases hc : env.ctxOk with
          | false => simp
          | true =>
            simp only [Bool.not_true, Bool.false_eq_true, if_false]
            cases hd : env.decOk with
            | false => simp
            | true =>
              simp only [Bool.not_true, Bool.false_eq_true, if_false]
              cases hsc : env.scalerOk with
              | false => simp
              | true =>
                simp only [Bool.not_true, Bool.false_eq_true, if_false]
                have hdts2 : ∀ p ∈ env.packets, p.streamIndex = sIdx →
                    p.dts ≠ none :=
                  fun p hp hst => hdts p hp sIdx tbNum tbDen hvs hst
                cases hout : outerLoop env sIdx
                    (positionF64 layer.frame fps tbNum tbDen) fuel
                    env.packets [] [] [] with
                | finished s l frame =>
                  by_cases hlen : frame.length = 0
                  · simp [hlen]
                  · simp [hlen]
                | panicDts s l =>
                  exact absurd hout (outerLoop_no_panic hwf hdts2).1
                | panicked s l =>
                  exact absurd hout (outerLoop_no_panic hwf hdts2).2
                | sendFail s l => simp
                | diverge s l => simp

/-- Witness for the amended C4 at a concrete environment with a decode
timestamp present. -/
theorem C4_no_panic_witness :
    ((envDecode [pkt0]).initOk = true ∧ scaleWF (envDecode [pkt0]) ∧
      (∀ p ∈ (envDecode [pkt0]).packets, ∀ sIdx tbNum tbDen,
        (envDecode [pkt0]).videoStream = some (sIdx, tbNum, tbDen) →
        p.streamIndex = sIdx → p.dts ≠ none)) ∧
    get_video_frame (envDecode [pkt0]) layer22 1 1 ≠ .panic := by
  have hwf : scaleWF (envDecode [pkt0]) := by
    intro f cf h
    simp only [envDecode] at h
    injection h with h2
    subst h2
    decide
  have hdts : ∀ p ∈ (envDecode [pkt0]).packets, ∀ sIdx tbNum tbDen,
      (envDecode [pkt0]).videoStream = some (sIdx, tbNum, tbDen) →
      p.streamIndex = sIdx → p.dts ≠ none := by
    intro p hp sIdx tbNum tbDen hvs hst
    simp only [envDecode, List.mem_singleton] at hp
    subst hp
    decide
  exact ⟨⟨rfl, hwf, hdts⟩, C4_no_panic (envDecode [pkt0]) layer22 1 1 rfl hwf hdts⟩

/-- Claim C5 counterexample: with `fps = 0` and `frame = 1` the Position
Translator does not fail — the division by zero produces infinity, the
saturating cast yields `i64::MAX`, the call proceeds through seek/decode and
fails only at the final no-frame check, not at the translator. -/
theorem C5_counterexample :
    positionF64 1 0 1 1 = pow2 63 - 1 ∧
    get_video_frame (envDecode []) ⟨"video.mp4", 1, 2, 2⟩ 0 1 =
      .failure .noFrame := by
  exact ⟨by decide, by decide⟩

/-- Claim C5 (amended): if `fps` is zero the Position Translator does not
fail and no error propagates; it yields `i64::MAX` (`frame/0 = ∞`, saturated
by the `as i64` cast) for a positive frame index and `0` (`0/0 = NaN`, cast
to zero) for frame 0, and extraction proceeds with that position.  A
non-finite `fps` cannot occur since `video_fps` is `u32`. -/
theorem C5_zero_fps (frame : ℕ) (tbNum tbDen : ℤ)
    (hframe : (frame : ℤ) ≤ pow2 52)
    (hnum : 0 < tbNum) (hnum2 : tbNum ≤ pow2 52)
    (hden : 0 < tbDen) (hden2 : tbDen ≤ pow2 52) :
    positionF64 frame 0 tbNum tbDen = if frame = 0 then 0 else pow2 63 - 1 := by
  have hfl0 : fl (Q.ofInt ((0 : ℕ) : ℤ)) = .finite (Q.ofInt 0) := by
    unfold fl Q.ofInt
    norm_num
  obtain ⟨c, d2, hflden, hc, hd2⟩ := fl_ofInt_small hden hden2
  obtain ⟨e2, f2, hflnum, he2, hf2⟩ := fl_ofInt_small hnum hnum2
  by_cases hf : frame = 0
  · subst hf
    simp only [positionF64]
    rw [hfl0]
    have h1 : fdiv (.finite (Q.ofInt 0)) (.finite (Q.ofInt 0)) = .nan := by
      simp [fdiv, Q.ofInt]
    rw [h1]
    simp [fmul, fdiv, toI64]
  · have hfpos : 0 < (frame : ℤ) := by
      exact_mod_cast Nat.pos_of_ne_zero hf
    obtain ⟨a, b2, hflframe, ha, hb2⟩ := fl_ofInt_small hfpos hframe
    simp only [positionF64]
    rw [hflframe, hfl0]
    have ht : fdiv (.finite ⟨a, b2⟩) (.finite (Q.ofInt 0)) = .inf := by
      simp only [fdiv, Q.ofInt]
      norm_num
      rw [if_neg (by omega), if_neg (by omega)]
    rw [ht, hflden]
    have hm2 : fmul .inf (.finite ⟨c, d2⟩) = .inf := by
      simp only [fmul]
      dsimp only
      rw [if_neg (by omega), if_neg (by omega)]
    rw [hm2, hflnum]
    have hd3 : fdiv .inf (.finite ⟨e2, f2⟩) = .inf := by
      simp only [fdiv]
      dsimp only
      rw [if_neg (by omega)]
    rw [hd3]
    simp only [toI64, if_neg hf]

/-- Witness for the amended C5 at `frame = 1`, time base `1/1`. -/
theorem C5_zero_fps_witness :
    (((1 : ℕ) : ℤ) ≤ pow2 52 ∧ (0 : ℤ) < 1 ∧ (1 : ℤ) ≤ pow2 52) ∧
    positionF64 1 0 1 1 = (if (1 : ℕ) = 0 then 0 else pow2 63 - 1) := by
  exact ⟨⟨by decide, by decide, by decide⟩,
    C5_zero_fps 1 1 1 (by decide) (by decide) (by decide) (by decide) (by decide)⟩

/-- Claim C6 counterexample: with a decoder that reports a non-"try again"
error for every receive, the engine stays in the per-packet decode loop
re-sending the *same* packet (trace `[pkt0, pkt0, pkt0]` after three
iterations, each error logged) and never advances to `pkt1` — refuting
"control resumes the outer packet loop (advancing to the next packet)". -/
theorem C6_counterexample :
    innerLoop (envErrOther [pkt0, pkt1]) 3 [] [] pkt0 =
      .spin [pkt0, pkt0, pkt0] [FErr.other, FErr.other, FErr.other] ∧
    outerLoop (envErrOther [pkt0, pkt1]) 0 0 3 [pkt0, pkt1] [] [] [] =
      .diverge [pkt0, pkt0, pkt0] [FErr.other, FErr.other, FErr.other] := by
  exact ⟨by decide, by decide⟩

/-- Claim C6 (amended): a decoder error other than "try again" is not fatal
to the call: it is reported on the diagnostic side channel (`handle_error`,
modelled from the spec as appending to the log) and the decode loop runs
again — but it re-sends the *same* packet rather than advancing to the next
one; the call is not aborted. -/
theorem C6_error_resends (env : Env) (fuel : ℕ) (sent : List Packet)
    (log : List FErr) (p : Packet) (hsend : env.sendOk sent p = true)
    (herr : process_frame env (sent ++ [p]) = .errF FErr.other) :
    innerLoop env (fuel + 1) sent log p =
      innerLoop env fuel (sent ++ [p]) (log ++ [FErr.other]) p := by
  conv_lhs => unfold innerLoop
  rw [if_pos hsend, herr]

/-- Witness for the amended C6 at a concrete erroring decoder. -/
theorem C6_error_resends_witness :
    ((envErrOther [pkt0]).sendOk [] pkt0 = true ∧
      process_frame (envErrOther [pkt0]) ([] ++ [pkt0]) = .errF FErr.other) ∧
    innerLoop (envErrOther [pkt0]) 1 [] [] pkt0 =
      innerLoop (envErrOther [pkt0]) 0 ([] ++ [pkt0]) ([] ++ [FErr.other]) pkt0 := by
  exact ⟨⟨by decide, by decide⟩,
    C6_error_resends (envErrOther [pkt0]) 0 [] [] pkt0 (by decide) (by decide)⟩

/-- Claim C7: the code contradicts the documented intent ("Need to send
another packet", line 141; the spec's "continue feeding subsequent packets",
"bounded by remaining packets in the stream").  Evaluated at the failing
input — a decoder that keeps reporting "try again" on a stream of two
packets — the retry loop re-sends the same first packet on every iteration:
after five iterations it has sent `pkt0` five times (more iterations than
the two packets remaining), never advanced to `pkt1`, and is still
running. -/
theorem C7_eagain_resends_unbounded :
    (envEagain [pkt0, pkt1]).packets = [pkt0, pkt1] ∧
    innerLoop (envEagain [pkt0, pkt1]) 5 [] [] pkt0 =
      .spin [pkt0, pkt0, pkt0, pkt0, pkt0] [] ∧
    outerLoop (envEagain [pkt0, pkt1]) 0 0 5 [pkt0, pkt1] [] [] [] =
      .diverge [pkt0, pkt0, pkt0, pkt0, pkt0] [] := by
  exact ⟨by decide, by decide, by decide⟩

end RemotionVideo

namespace RemotionVideo

/-- Claim C8: if decode-forward completes with a zero-length buffer (no
frame ever decoded) the call fails with the generic extraction error
("Could not create pixmap"); a non-empty buffer is returned as success; an
empty buffer is never returned as success. -/
theorem C8_empty_policy (env : Env) (layer : VideoLayer) (fps fuel : ℕ)
    (sIdx : ℕ) (tbNum tbDen : ℤ) (s : List Packet) (l : List FErr)
    (frame : List ℕ)
    (hinit : env.initOk = true) (ho1 : env.open1Ok = true)
    (ho2 : env.open2Ok = true)
    (hvs : env.videoStream = some (sIdx, tbNum, tbDen))
    (hseek : env.seekOk = true) (hctx : env.ctxOk = true)
    (hdec : env.decOk = true) (hscaler : env.scalerOk = true)
    (hout : outerLoop env sIdx (positionF64 layer.frame fps tbNum tbDen) fuel
      env.packets [] [] [] = .finished s l frame) :
    get_video_frame env layer fps fuel =
      (if frame.length = 0 then .failure .noFrame else .ok frame) ∧
    get_video_frame env layer fps fuel ≠ .ok [] := by
  have hrun : get_video_frame env layer fps fuel =
      (if frame.length = 0 then .failure .noFrame else .ok frame) := by
    unfold get_video_frame
    simp only [hinit, ho1, ho2, hseek, hctx, hdec, hscaler, Bool.not_true,
      Bool.false_eq_true, if_false, hvs]
    rw [hout]
  refine ⟨hrun, ?_⟩
  rw [hrun]
  by_cases hlen : frame.length = 0
  · simp [hlen]
  · rw [if_neg hlen]
    intro hcontra
    have : frame = [] := by
      cases hcontra
      rfl
    rw [this] at hlen
    simp at hlen

/-- Witness for C8: with no packets, decode-forward finishes with the empty
buffer and the call fails with the generic extraction error. -/
theorem C8_empty_policy_witness :
    ((envDecode []).initOk = true ∧ (envDecode []).videoStream = some (0, 1, 1) ∧
      outerLoop (envDecode []) 0 (positionF64 layer22.frame 1 1 1) 1
        (envDecode []).packets [] [] [] = .finished [] [] []) ∧
    (get_video_frame (envDecode []) layer22 1 1 =
      (if ([] : List ℕ).length = 0 then .failure .noFrame else .ok []) ∧
     get_video_frame (envDecode []) layer22 1 1 ≠ .ok []) := by
  exact ⟨⟨rfl, rfl, by decide⟩,
    C8_empty_policy (envDecode []) layer22 1 1 0 1 1 [] [] []
      rfl rfl rfl rfl rfl rfl rfl rfl (by decide)⟩

/-- Claim C9 counterexample: at `frame_index = 67439702`,
`fps = 82883007`, time base `1/84211465`, the `f64` computation the code
performs yields position `68520633`, whereas the exact rational value
`floor(frame·den / (fps·num))` is `68520632` — the claimed equality with
the exact floor fails (the three floating-point roundings in
`frame/fps*den/num` push the value past the next integer). -/
theorem C9_counterexample :
    positionF64 67439702 82883007 1 84211465 = 68520633 ∧
    ((67439702 : ℤ) * 84211465) / ((82883007 : ℤ) * 1) = 68520632 := by
  exact ⟨by decide, by decide⟩

/-- Claim C9 (amended): the seek target equals the *truncation of the
`f64`-evaluated* expression `(frame/fps)·den/num` — the cast acts as a
floor, since the value is nonnegative — but that may differ from the exact
rational `floor((frame·den)/(fps·num))` (see the counterexample). -/
theorem C9_cast_is_floor (frame fps : ℕ) (tbNum tbDen : ℤ) (q : Q)
    (h : fdiv (fmul (fdiv (fl (Q.ofInt frame)) (fl (Q.ofInt fps)))
          (fl (Q.ofInt tbDen))) (fl (Q.ofInt tbNum)) = .finite q)
    (hn : 0 ≤ q.num) (hd : 0 < q.den) (hle : Q.floor q ≤ pow2 63 - 1) :
    positionF64 frame fps tbNum tbDen = Q.floor q := by
  simp only [positionF64]
  rw [h]
  exact toI64_floor hn hd hle

/-- Witness for the amended C9 at `frame = 0`, `fps = 1`, time base `1/1`,
where the chain evaluates to the finite value `0/1`. -/
theorem C9_cast_is_floor_witness :
    (fdiv (fmul (fdiv (fl (Q.ofInt ((0 : ℕ) : ℤ))) (fl (Q.ofInt ((1 : ℕ) : ℤ))))
        (fl (Q.ofInt 1))) (fl (Q.ofInt 1)) = .finite ⟨0, 1⟩ ∧
      (0 : ℤ) ≤ 0 ∧ (0 : ℤ) < 1 ∧ Q.floor ⟨0, 1⟩ ≤ pow2 63 - 1) ∧
    positionF64 0 1 1 1 = Q.floor ⟨0, 1⟩ := by
  exact ⟨⟨by decide, by decide, by decide, by decide⟩,
    C9_cast_is_floor 0 1 1 1 ⟨0, 1⟩ (by decide) (by decide) (by decide)
      (by decide)⟩

/-- Entries that satisfy `entryOk` are pre-seeked without effect on the
batch outcome. -/
theorem seekAll_pre {env : BatchEnv} :
    ∀ {pre : List (String × List ℕ)} (rest : List (String × List ℕ)),
      (∀ e ∈ pre, entryOk env e) →
      seekAll env (pre ++ rest) = seekAll env rest := by
  intro pre
  induction pre with
  | nil => intro rest _; rfl
  | cons e t ih =>
    intro rest hok
    obtain ⟨src, frames⟩ := e
    have he := hok (src, frames) (by simp)
    unfold entryOk at he
    cases frames with
    | nil => exact he.elim
    | cons f t2 =>
      obtain ⟨hopen, hstream⟩ := he
      cases hs : env.stream src with
      | none => rw [hs] at hstream; exact hstream.elim
      | some tb =>
        obtain ⟨tbNum, tbDen⟩ := tb
        rw [hs] at hstream
        show seekAll env ((src, f :: t2) :: (t ++ rest)) = seekAll env rest
        conv_lhs => unfold seekAll
        dsimp only
        rw [if_pos hopen, hs]
        dsimp only
        rw [if_pos hstream]
        exact ih rest (fun e2 he2 => hok e2 (by simp [he2]))

/-- Claim C10: if some source path maps to an empty set of frame indices,
`process_frames` panics (the `unwrap` on the empty key iterator, line 36)
instead of returning an error or skipping that source — an unstated
precondition that every per-source frame set be non-empty.  (Map iteration
order is abstracted as list order; entries iterated before the empty one
are assumed to pre-seek successfully, since each of their own failures
would also panic.) -/
theorem C10_empty_frames_panic (env : BatchEnv)
    (pre rest : List (String × List ℕ)) (src : String)
    (hinit : env.initOk = true) (hpre : ∀ e ∈ pre, entryOk env e) :
    process_frames env (pre ++ (src, []) :: rest) = .panic := by
  unfold process_frames
  simp only [hinit, Bool.not_true, Bool.false_eq_true, if_false]
  rw [seekAll_pre _ hpre]
  rfl

/-- Witness for C10: a concrete signal map in which `"b"` maps to frame set
`{3}` and `"a"` maps to the empty set panics. -/
theorem C10_empty_frames_panic_witness :
    (envBatch.initOk = true ∧ (∀ e ∈ [("b", [3])], entryOk envBatch e)) ∧
    process_frames envBatch ([("b", [3])] ++ ("a", []) :: []) = .panic := by
  have hpre : ∀ e ∈ [("b", [(3 : ℕ)])], entryOk envBatch e := by
    intro e he
    simp only [List.mem_singleton] at he
    subst he
    exact ⟨rfl, rfl⟩
  exact ⟨⟨rfl, hpre⟩, C10_empty_frames_panic envBatch [("b", [3])] [] "a" rfl hpre⟩

end RemotionVideo
